import Mathlib

/-!
# Verification of `ArchiveCompatibilityChecker.py`

A shallow embedding of the archive-compatibility-checker plugin
(`src/ArchiveCompatibilityChecker.py`).  Pure Python functions become Lean
functions; exceptions (`KeyError` from dict subscripting, `struct.error`
from `unpack`, `IndexError` / `ValueError` raised explicitly) become
`Option` / `Except`; file-system access is instrumented with an explicit
trace of `FsOp` operations so that read-only behaviour, read counts and
read positions can be stated and proved.

A candidate file is modelled as a `File` record carrying the data the code
queries from the host's filesystem: its path name, the `path.suffix`
attribute, the `path.is_file()` answer, and its byte content (so that
`stat().st_size` is the length of the content and `read(n)` takes bytes
from it).
-/

/-- `Problem(enum.IntEnum)` from the source; `enum.auto` numbers members
from 1. -/
inductive Problem where
  | NONE
  | NOT_A_FILE
  | WRONG_EXTENSION
  | WRONG_FORMAT
deriving DecidableEq, Repr

/-- The `.value` of a `Problem` member (`enum.auto` starts at 1). -/
def Problem.val : Problem → Nat
  | .NONE => 1
  | .NOT_A_FILE => 2
  | .WRONG_EXTENSION => 3
  | .WRONG_FORMAT => 4

/-- `Problem(key)`: converts an integer back to the enum member, raising
`ValueError` (here `none`) when no member has that value. -/
def Problem.ofKey (key : Nat) : Option Problem :=
  if key = 1 then some .NONE
  else if key = 2 then some .NOT_A_FILE
  else if key = 3 then some .WRONG_EXTENSION
  else if key = 4 then some .WRONG_FORMAT
  else none

/-- `FileFormat(enum.IntEnum)` from the source. -/
inductive FileFormat where
  | UNKNOWN
  | TES3
  | TES4
  | FO3
  | SSE
  | FO4
deriving DecidableEq, Repr

/-- A candidate file as the code observes it through the host filesystem:
`name` is the path string from `findFiles`, `suffix` the `pathlib`
suffix of that path, `isFile` the `is_file()` answer, and `bytes` the
content (so `stat().st_size = bytes.length`). -/
structure File where
  name : String
  suffix : String
  isFile : Bool
  bytes : List Nat
deriving DecidableEq, Repr

/-- `ProblemArchive` dataclass: a flagged path paired with its problem. -/
structure ProblemArchive where
  path : File
  problem : Problem
deriving DecidableEq, Repr

/-- The `self.__supportedGames` set. -/
def supportedGames : List String :=
  ["Morrowind", "Oblivion", "Fallout 3", "New Vegas", "Skyrim",
   "Fallout 4", "Skyrim Special Edition", "Skyrim VR", "Fallout 4 VR"]

/-- `self.__gameToExt`: built as `{game: ".bsa" for game in supportedGames}`
then overridden to `".ba2"` for the two Fallout 4 entries.  Subscripting
with a key outside the dict raises `KeyError`, hence `Option`. -/
def gameToExt (game : String) : Option String :=
  if game = "Fallout 4" then some ".ba2"
  else if game = "Fallout 4 VR" then some ".ba2"
  else if supportedGames.contains game then some ".bsa"
  else none

/-- `self.__gameToFmt`: built as `{game: UNKNOWN for game in supportedGames}`
then overridden per game; every supported game is overridden. -/
def gameToFmt (game : String) : Option FileFormat :=
  if game = "Morrowind" then some .TES3
  else if game = "Oblivion" then some .TES4
  else if game = "Fallout 3" then some .FO3
  else if game = "New Vegas" then some .FO3
  else if game = "Skyrim" then some .FO3
  else if game = "Fallout 4" then some .FO4
  else if game = "Skyrim Special Edition" then some .SSE
  else if game = "Skyrim VR" then some .SSE
  else if game = "Fallout 4 VR" then some .FO4
  else if supportedGames.contains game then some .UNKNOWN
  else none

/-- `self.__magics.get(magic, FileFormat.UNKNOWN)`: the static magic
table with its default. -/
def magicsGet (magic : Nat) : FileFormat :=
  if magic = 0x100 then .TES3
  else if magic = 0x00415342 then .TES4
  else if magic = 0x58445442 then .FO4
  else .UNKNOWN

/-- `self.__tes4Versions.get(version, FileFormat.UNKNOWN)`: the static
TES4-family version table with its default. -/
def tes4VersionsGet (version : Nat) : FileFormat :=
  if version = 103 then .TES4
  else if version = 104 then .FO3
  else if version = 105 then .SSE
  else .UNKNOWN

/-- `self.__u32.unpack(buf)[0]` for `struct.Struct("<I")`: decodes exactly
four bytes as a little-endian unsigned 32-bit integer, raising
`struct.error` (here `none`) when the buffer is not exactly four bytes. -/
def u32_unpack (buf : List Nat) : Option Nat :=
  match buf with
  | [b0, b1, b2, b3] => some (b0 + b1 * 256 + b2 * 65536 + b3 * 16777216)
  | _ => none

/-- The little-endian 32-bit value of (up to) the first four entries of a
byte list; used to state what `u32_unpack` computes. -/
def u32LE (buf : List Nat) : Nat :=
  buf.getD 0 0 + buf.getD 1 0 * 256 + buf.getD 2 0 * 65536 + buf.getD 3 0 * 16777216

/-- The filesystem operations the plugin could issue.  The scan only ever
issues the first four (all read-only); the mutating operations exist in the
model so that the frame theorem is not vacuous. -/
inductive FsOp where
  | isFileQ (path : String)
  | statQ (path : String)
  | openRead (path : String)
  | readBytes (path : String) (pos n : Nat)
  | writeBytes (path : String) (data : List Nat)
  | createFile (path : String)
  | deleteFile (path : String)
deriving DecidableEq, Repr

/-- Whether an operation is read-only. -/
def FsOp.readOnly : FsOp → Bool
  | .writeBytes _ _ => false
  | .createFile _ => false
  | .deleteFile _ => false
  | _ => true

/-- An abstract filesystem: content of each path, `none` when absent. -/
def FS : Type := String → Option (List Nat)

/-- Effect of one operation on the filesystem: queries and reads leave it
unchanged, mutating operations update the addressed path. -/
def applyOp (op : FsOp) (fs : FS) : FS :=
  match op with
  | .writeBytes p data => fun q => if q = p then some data else fs q
  | .createFile p => fun q => if q = p then some [] else fs q
  | .deleteFile p => fun q => if q = p then none else fs q
  | _ => fs

/-- Effect of a trace of operations, applied in order. -/
def applyTrace (t : List FsOp) (fs : FS) : FS :=
  match t with
  | [] => fs
  | op :: rest => applyTrace rest (applyOp op fs)

/-- `__getFileFormat`, instrumented with its filesystem trace.  It stats
the file; if the size is below 4 it returns `UNKNOWN`; otherwise it opens
the file, reads 4 bytes (the open handle starts at position 0), unpacks
them as the little-endian magic and maps it through the magic table; only
in the `TES4` case does it check the size again and read and unpack the
following 4-byte version, mapped through the version table.  `none` models
an escaping `struct.error`. -/
def getFileFormatT (f : File) : Option FileFormat × List FsOp :=
  let st_size := f.bytes.length
  if st_size < 4 then
    (some .UNKNOWN, [.statQ f.name])
  else
    let t2 : List FsOp := [.statQ f.name, .openRead f.name, .readBytes f.name 0 4]
    match u32_unpack ((f.bytes.drop 0).take 4) with
    | none => (none, t2)
    | some magic =>
      let fmt := magicsGet magic
      if fmt = .TES4 then
        if st_size < 8 then
          (some .UNKNOWN, t2)
        else
          let t3 := t2 ++ [.readBytes f.name 4 4]
          match u32_unpack ((f.bytes.drop 4).take 4) with
          | none => (none, t3)
          | some version => (some (tes4VersionsGet version), t3)
      else
        (some fmt, t2)

/-- `__validateArchive`, instrumented.  `none` models an escaping
exception (`KeyError` for an unsupported current game, or `struct.error`
propagating out of the sniffer). -/
def validateArchiveT (game : String) (f : File) : Option Problem × List FsOp :=
  if f.isFile = false then
    (some .NOT_A_FILE, [.isFileQ f.name])
  else
    match gameToExt game with
    | none => (none, [.isFileQ f.name])
    | some ext =>
      if f.suffix ≠ ext then
        (some .WRONG_EXTENSION, [.isFileQ f.name])
      else
        match getFileFormatT f with
        | (none, t) => (none, .isFileQ f.name :: t)
        | (some fmt, t) =>
          match gameToFmt game with
          | none => (none, .isFileQ f.name :: t)
          | some expected =>
            if fmt ≠ expected then
              (some .WRONG_FORMAT, .isFileQ f.name :: t)
            else
              (some .NONE, .isFileQ f.name :: t)

/-- `list(self.__listBadArchives())`: validates each enumerated file in
order and keeps, in order, those whose problem is not `NONE`.  An
exception while validating a file aborts the whole scan (`none`), and the
generator is consumed serially so later files are not touched. -/
def listBadArchivesT (game : String) : List File → Option (List ProblemArchive) × List FsOp
  | [] => (some [], [])
  | f :: rest =>
    match validateArchiveT game f with
    | (none, t) => (none, t)
    | (some p, t) =>
      match listBadArchivesT game rest with
      | (none, t2) => (none, t ++ t2)
      | (some tail, t2) =>
        (some (if p ≠ Problem.NONE then ⟨f, p⟩ :: tail else tail), t ++ t2)

/-- `activeProblems`: rebuilds `self.__archives` from the host enumeration
and returns the deduplicated list of problem values.  The result pairs the
returned value list with the new `self.__archives` contents. -/
def activeProblemsT (game : String) (files : List File) :
    Option (List Nat × List ProblemArchive) × List FsOp :=
  match listBadArchivesT game files with
  | (none, t) => (none, t)
  | (some archives, t) =>
    (some ((archives.map (fun x => x.problem.val)).dedup, archives), t)

/-- Errors the guided-fix entry points can raise. -/
inductive PluginError where
  | indexError
  | valueError
deriving DecidableEq, Repr

/-- `hasGuidedFix`: decodes the key (`ValueError` when it is no `Problem`
value), returns `False` for every problem other than `NONE`, and raises
`IndexError` for `NONE`. -/
def hasGuidedFix (key : Nat) : Except PluginError Bool :=
  match Problem.ofKey key with
  | none => .error .valueError
  | some p => if p ≠ Problem.NONE then .ok false else .error .indexError

/-- `startGuidedFix`: unconditionally raises `ValueError`. -/
def startGuidedFix (_key : Nat) : Except PluginError Unit :=
  .error .valueError

/-- Number of sniffer invocations recorded in a trace: the sniffer emits
exactly one `statQ` per call, as its first operation. -/
def sniffCount (t : List FsOp) : Nat :=
  t.countP (fun op => match op with | .statQ _ => true | _ => false)

/-- The `(position, length)` of each `readBytes` operation in a trace. -/
def readOps (t : List FsOp) : List (Nat × Nat) :=
  t.filterMap (fun op => match op with | .readBytes _ pos n => some (pos, n) | _ => none)

/-- Total number of bytes requested by the reads of a trace. -/
def bytesRequested (t : List FsOp) : Nat :=
  (readOps t).foldr (fun r acc => r.2 + acc) 0

/-- A list of reads is a single forward pass from `start`: each read
begins exactly where the previous one ended. -/
def forwardFrom (start : Nat) : List (Nat × Nat) → Bool
  | [] => true
  | (pos, n) :: rest => pos = start && forwardFrom (pos + n) rest

/-- Every read of the trace stays within a file of `size` bytes. -/
def readsInBounds (size : Nat) (t : List FsOp) : Bool :=
  (readOps t).all (fun r => r.1 + r.2 ≤ size)

/-! ## Helper lemmas -/

theorem u32_unpack_eq (buf : List Nat) (h : buf.length = 4) :
    u32_unpack buf = some (u32LE buf) := by
  rcases buf with _ | ⟨b0, _ | ⟨b1, _ | ⟨b2, _ | ⟨b3, _ | ⟨b4, rest⟩⟩⟩⟩⟩ <;>
    simp_all [u32_unpack, u32LE]

theorem getFileFormatT_small (f : File) (h : f.bytes.length < 4) :
    getFileFormatT f = (some .UNKNOWN, [.statQ f.name]) := by
  simp [getFileFormatT, h]

theorem getFileFormatT_eq (f : File) (h4 : 4 ≤ f.bytes.length) :
    getFileFormatT f =
      (if magicsGet (u32LE (f.bytes.take 4)) = .TES4 then
         if f.bytes.length < 8 then
           (some .UNKNOWN,
            [.statQ f.name, .openRead f.name, .readBytes f.name 0 4])
         else
           (some (tes4VersionsGet (u32LE ((f.bytes.drop 4).take 4))),
            [.statQ f.name, .openRead f.name, .readBytes f.name 0 4,
             .readBytes f.name 4 4])
       else
         (some (magicsGet (u32LE (f.bytes.take 4))),
          [.statQ f.name, .openRead f.name, .readBytes f.name 0 4])) := by
  have hlt : ¬ f.bytes.length < 4 := by omega
  have h1 : ((f.bytes.drop 0).take 4).length = 4 := by
    simp [List.length_take]; omega
  unfold getFileFormatT
  rw [u32_unpack_eq _ h1]
  simp only [List.drop_zero, if_neg hlt]
  by_cases hm : magicsGet (u32LE (f.bytes.take 4)) = .TES4
  · by_cases h8 : f.bytes.length < 8
    · simp [hm, h8]
    · have h2 : ((f.bytes.drop 4).take 4).length = 4 := by
        simp [List.length_take]; omega
      rw [u32_unpack_eq _ h2]
      simp [hm, h8]
  · simp [hm]

theorem getFileFormatT_fst_isSome (f : File) :
    ((getFileFormatT f).fst).isSome = true := by
  by_cases h : f.bytes.length < 4
  · rw [getFileFormatT_small f h]
    rfl
  · rw [getFileFormatT_eq f (by omega)]
    split <;> [skip; rfl]
    split <;> rfl

theorem supported_lookups (game : String)
    (h : supportedGames.contains game = true) :
    (∃ ext, gameToExt game = some ext) ∧ (∃ fmt, gameToFmt game = some fmt) := by
  have h' : game ∈ supportedGames := by simpa using h
  simp only [supportedGames, List.mem_cons, List.not_mem_nil, or_false] at h'
  rcases h' with h' | h' | h' | h' | h' | h' | h' | h' | h' <;> subst h' <;>
    exact ⟨⟨_, rfl⟩, ⟨_, rfl⟩⟩

theorem gameToExt_supported (game : String)
    (h : (gameToExt game).isSome = true) :
    supportedGames.contains game = true := by
  unfold gameToExt at h
  split_ifs at h with h1 h2 h3
  · subst h1; rfl
  · subst h2; rfl
  · exact h3
  · simp at h

theorem validateArchiveT_fst_eq (game ext : String) (efmt : FileFormat)
    (f : File) (hg : gameToExt game = some ext)
    (hf : gameToFmt game = some efmt) :
    (validateArchiveT game f).fst =
      (if f.isFile = false then some .NOT_A_FILE
       else if f.suffix ≠ ext then some .WRONG_EXTENSION
       else if (getFileFormatT f).fst ≠ some efmt then some .WRONG_FORMAT
       else some .NONE) := by
  have hs := getFileFormatT_fst_isSome f
  rcases hG : getFileFormatT f with ⟨o, t⟩
  rw [hG] at hs
  rcases o with _ | fmt
  · simp at hs
  · unfold validateArchiveT
    rw [hg, hf, hG]
    by_cases h1 : f.isFile = false
    · simp [h1]
    · by_cases h2 : f.suffix = ext <;> by_cases h3 : fmt = efmt <;>
        simp [h1, h2, h3]

theorem validateArchiveT_fst_isSome (game : String) (f : File)
    (h : supportedGames.contains game = true) :
    ((validateArchiveT game f).fst).isSome = true := by
  obtain ⟨⟨ext, hg⟩, ⟨efmt, hf⟩⟩ := supported_lookups game h
  rw [validateArchiveT_fst_eq game ext efmt f hg hf]
  split_ifs <;> rfl

theorem sniffCount_getFileFormatT (f : File) :
    sniffCount (getFileFormatT f).snd = 1 := by
  by_cases h : f.bytes.length < 4
  · rw [getFileFormatT_small f h]
    rfl
  · rw [getFileFormatT_eq f (by omega)]
    split
    · split <;> rfl
    · rfl

theorem readOnly_getFileFormatT (f : File) :
    ((getFileFormatT f).snd).all FsOp.readOnly = true := by
  by_cases h : f.bytes.length < 4
  · rw [getFileFormatT_small f h]
    rfl
  · rw [getFileFormatT_eq f (by omega)]
    split
    · split <;> rfl
    · rfl

theorem validateArchiveT_snd (game : String) (f : File) :
    (validateArchiveT game f).snd = [.isFileQ f.name] ∨
      (validateArchiveT game f).snd = .isFileQ f.name :: (getFileFormatT f).snd := by
  unfold validateArchiveT
  rcases hG : getFileFormatT f with ⟨o, t⟩
  rcases hE : gameToExt game with _ | ext
  · by_cases h1 : f.isFile = false <;> simp [h1, hE]
  · by_cases h1 : f.isFile = false
    · simp [h1, hE]
    · by_cases h2 : f.suffix = ext
      · rcases o with _ | fmt
        · simp [h1, h2, hE, hG]
        · rcases hF : gameToFmt game with _ | efmt
          · simp [h1, h2, hE, hG, hF]
          · by_cases h3 : fmt = efmt <;> simp [h1, h2, h3, hE, hG, hF]
      · simp [h1, h2, hE]

theorem sniffCount_cons_isFileQ (x : String) (t : List FsOp) :
    sniffCount (.isFileQ x :: t) = sniffCount t := by
  simp [sniffCount, List.countP_cons]

theorem sniffCount_validateArchiveT (game ext : String) (f : File)
    (hg : gameToExt game = some ext) :
    sniffCount (validateArchiveT game f).snd =
      (if f.isFile = true ∧ f.suffix = ext then 1 else 0) := by
  unfold validateArchiveT
  rcases hG : getFileFormatT f with ⟨o, t⟩
  have ht : sniffCount t = 1 := by
    have h := sniffCount_getFileFormatT f
    rw [hG] at h
    exact h
  by_cases h1 : f.isFile = false
  · have hc : ¬ (f.isFile = true ∧ f.suffix = ext) := by simp [h1]
    simp [h1, hc, sniffCount, List.countP_cons]
  · have h1' : f.isFile = true := by revert h1; cases f.isFile <;> simp
    by_cases h2 : f.suffix = ext
    · rcases o with _ | fmt
      · simp [h1, h1', h2, hg, hG, sniffCount_cons_isFileQ, ht]
      · rcases hF : gameToFmt game with _ | efmt
        · simp [h1, h1', h2, hg, hG, hF, sniffCount_cons_isFileQ, ht]
        · by_cases h3 : fmt = efmt <;>
            simp [h1, h1', h2, h3, hg, hG, hF, sniffCount_cons_isFileQ, ht]
    · simp [h1, h1', h2, hg, sniffCount, List.countP_cons]

theorem listBadArchivesT_snd (game : String)
    (h : supportedGames.contains game = true) (files : List File) :
    (listBadArchivesT game files).snd =
      files.flatMap (fun f => (validateArchiveT game f).snd) := by
  induction files with
  | nil => rfl
  | cons f rest ih =>
    have hs := validateArchiveT_fst_isSome game f h
    rcases hv : validateArchiveT game f with ⟨o, t⟩
    rw [hv] at hs
    rcases o with _ | p
    · simp at hs
    · rcases hr : listBadArchivesT game rest with ⟨or, t2⟩
      have ht2 : t2 = rest.flatMap (fun f => (validateArchiveT game f).snd) := by
        rw [hr] at ih
        exact ih
      rcases or with _ | tail <;>
        simp [listBadArchivesT, hv, hr, ht2]

theorem listBadArchivesT_fst_isSome (game : String)
    (h : supportedGames.contains game = true) (files : List File) :
    ((listBadArchivesT game files).fst).isSome = true := by
  induction files with
  | nil => rfl
  | cons f rest ih =>
    have hs := validateArchiveT_fst_isSome game f h
    rcases hv : validateArchiveT game f with ⟨o, t⟩
    rw [hv] at hs
    rcases o with _ | p
    · simp at hs
    · rcases hr : listBadArchivesT game rest with ⟨or, t2⟩
      rw [hr] at ih
      rcases or with _ | tail
      · simp at ih
      · simp [listBadArchivesT, hv, hr]

theorem listBadArchivesT_fst_eq (game : String) (files : List File)
    (l : List ProblemArchive)
    (h : (listBadArchivesT game files).fst = some l) :
    l = files.filterMap (fun f =>
      match (validateArchiveT game f).fst with
      | some p => if p = Problem.NONE then none else some ⟨f, p⟩
      | none => none) := by
  induction files generalizing l with
  | nil =>
    simp [listBadArchivesT] at h
    simp [h.symm]
  | cons f rest ih =>
    rcases hv : validateArchiveT game f with ⟨o, t⟩
    rcases o with _ | p
    · rw [listBadArchivesT, hv] at h
      simp at h
    · rcases hr : listBadArchivesT game rest with ⟨or, t2⟩
      rcases or with _ | tail
      · rw [listBadArchivesT, hv, hr] at h
        simp at h
      · rw [listBadArchivesT, hv, hr] at h
        simp only [Option.some.injEq] at h
        have htail : tail = rest.filterMap (fun f =>
            match (validateArchiveT game f).fst with
            | some p => if p = Problem.NONE then none else some ⟨f, p⟩
            | none => none) := by
          apply ih
          rw [hr]
        rw [← h, List.filterMap_cons, hv, htail]
        by_cases hp : p = Problem.NONE <;> simp [hp]

theorem readOnly_validateArchiveT (game : String) (f : File) :
    ((validateArchiveT game f).snd).all FsOp.readOnly = true := by
  rcases validateArchiveT_snd game f with h | h <;> rw [h]
  · rfl
  · rw [List.all_cons]
    simp only [Bool.and_eq_true]
    exact ⟨rfl, readOnly_getFileFormatT f⟩

theorem readOnly_listBadArchivesT (game : String) (files : List File) :
    ((listBadArchivesT game files).snd).all FsOp.readOnly = true := by
  induction files with
  | nil => rfl
  | cons f rest ih =>
    have hv' := readOnly_validateArchiveT game f
    rcases hv : validateArchiveT game f with ⟨o, t⟩
    rw [hv] at hv'
    rcases hr : listBadArchivesT game rest with ⟨or, t2⟩
    rw [hr] at ih
    rcases o with _ | p
    · simpa [listBadArchivesT, hv] using hv'
    · rcases or with _ | tail <;>
        (simp [listBadArchivesT, hv, hr, List.all_append];
          exact ⟨by simpa using hv', by simpa using ih⟩)

theorem activeProblemsT_snd_eq (game : String) (files : List File) :
    (activeProblemsT game files).snd = (listBadArchivesT game files).snd := by
  unfold activeProblemsT
  rcases h : listBadArchivesT game files with ⟨o, t⟩
  rcases o with _ | l <;> rfl

theorem applyTrace_of_readOnly (t : List FsOp)
    (h : t.all FsOp.readOnly = true) (fs : FS) : applyTrace t fs = fs := by
  induction t generalizing fs with
  | nil => rfl
  | cons op rest ih =>
    rw [List.all_cons, Bool.and_eq_true] at h
    obtain ⟨h1, h2⟩ := h
    have hop : applyOp op fs = fs := by
      cases op <;> first | rfl | simp [FsOp.readOnly] at h1
    show applyTrace rest (applyOp op fs) = fs
    rw [hop]
    exact ih h2 fs

/-! ## Claim theorems -/

/-- C1: for every candidate file (of size at least 4, so that the magic is
reached), the sniffer decodes the first 4 bytes as a little-endian 32-bit
magic and maps it through the static magic table (0x100 → TES3,
0x00415342 → TES4 family, 0x58445442 → FO4, anything else → UNKNOWN); only
for the TES4-family magic does it read a following little-endian 4-byte
version and map it through the static version table (103 → TES4,
104 → FO3, 105 → SSE, anything else → UNKNOWN), performing a second read
exactly in that branch. -/
theorem c1_format_sniffer (f : File) (h4 : 4 ≤ f.bytes.length) :
    ((getFileFormatT f).fst =
       if magicsGet (u32LE (f.bytes.take 4)) = FileFormat.TES4 then
         (if f.bytes.length < 8 then some FileFormat.UNKNOWN
          else some (tes4VersionsGet (u32LE ((f.bytes.drop 4).take 4))))
       else some (magicsGet (u32LE (f.bytes.take 4))))
    ∧ ((readOps (getFileFormatT f).snd).length =
        if magicsGet (u32LE (f.bytes.take 4)) = FileFormat.TES4 ∧
            ¬ f.bytes.length < 8 then 2 else 1)
    ∧ magicsGet 0x100 = FileFormat.TES3
    ∧ magicsGet 0x00415342 = FileFormat.TES4
    ∧ magicsGet 0x58445442 = FileFormat.FO4
    ∧ (∀ m, m ≠ 0x100 → m ≠ 0x00415342 → m ≠ 0x58445442 →
        magicsGet m = FileFormat.UNKNOWN)
    ∧ tes4VersionsGet 103 = FileFormat.TES4
    ∧ tes4VersionsGet 104 = FileFormat.FO3
    ∧ tes4VersionsGet 105 = FileFormat.SSE
    ∧ (∀ v, v ≠ 103 → v ≠ 104 → v ≠ 105 →
        tes4VersionsGet v = FileFormat.UNKNOWN) := by
  refine ⟨?_, ?_, rfl, rfl, rfl, ?_, rfl, rfl, rfl, ?_⟩
  · by_cases hm : magicsGet (u32LE (f.bytes.take 4)) = FileFormat.TES4
    · by_cases h8 : f.bytes.length < 8 <;>
        simp [getFileFormatT_eq f h4, hm, h8]
    · simp [getFileFormatT_eq f h4, hm]
  · by_cases hm : magicsGet (u32LE (f.bytes.take 4)) = FileFormat.TES4
    · by_cases h8 : f.bytes.length < 8 <;>
        simp [getFileFormatT_eq f h4, hm, h8, readOps]
    · simp [getFileFormatT_eq f h4, hm, readOps]
  · intro m h1 h2 h3
    simp [magicsGet, h1, h2, h3]
  · intro v h1 h2 h3
    simp [tes4VersionsGet, h1, h2, h3]

/-- Witness for C1 at a concrete TES4-family archive with version 105. -/
theorem c1_format_sniffer_witness :
    (getFileFormatT ⟨"a.bsa", ".bsa", true,
        [0x42, 0x53, 0x41, 0, 105, 0, 0, 0]⟩).fst = some FileFormat.SSE := by
  have h := (c1_format_sniffer
    ⟨"a.bsa", ".bsa", true, [0x42, 0x53, 0x41, 0, 105, 0, 0, 0]⟩ (by decide)).1
  rw [h]
  decide

/-- C2: for every regular file, under a supported current game (so the
game-to-extension and game-to-format tables have entries), validation
returns WRONG_EXTENSION exactly when the suffix differs from the table's
extension, WRONG_FORMAT exactly when the suffix matches but the sniffed
format differs from the table's format, and NONE otherwise. -/
theorem c2_validate_iff (game ext : String) (efmt : FileFormat) (f : File)
    (hg : gameToExt game = some ext) (hf : gameToFmt game = some efmt)
    (hfile : f.isFile = true) :
    ((validateArchiveT game f).fst = some Problem.WRONG_EXTENSION ↔
        f.suffix ≠ ext)
    ∧ ((validateArchiveT game f).fst = some Problem.WRONG_FORMAT ↔
        (f.suffix = ext ∧ (getFileFormatT f).fst ≠ some efmt))
    ∧ ((validateArchiveT game f).fst = some Problem.NONE ↔
        (f.suffix = ext ∧ (getFileFormatT f).fst = some efmt)) := by
  rw [validateArchiveT_fst_eq game ext efmt f hg hf]
  have h1 : ¬ f.isFile = false := by simp [hfile]
  by_cases h2 : f.suffix = ext <;>
    by_cases h3 : (getFileFormatT f).fst = some efmt <;>
    simp [h1, h2, h3]

/-- Witness for C2: a Skyrim scan of a regular `.bsa` archive whose header
is the FO3 format expected for Skyrim, which validates to NONE. -/
theorem c2_validate_iff_witness :
    (validateArchiveT "Skyrim"
        ⟨"a.bsa", ".bsa", true, [0x42, 0x53, 0x41, 0, 104, 0, 0, 0]⟩).fst
      = some Problem.NONE := by
  have h := (c2_validate_iff "Skyrim" ".bsa" FileFormat.FO3
    ⟨"a.bsa", ".bsa", true, [0x42, 0x53, 0x41, 0, 104, 0, 0, 0]⟩
    (by decide) (by decide) rfl).2.2
  exact h.mpr ⟨rfl, by decide⟩

/-- C3: the sniffer requests at most 8 bytes from the file (each read
requests exactly 4 bytes), and it always terminates normally with a value
of the `FileFormat` enum. -/
theorem c3_reads_at_most_eight (f : File) :
    bytesRequested (getFileFormatT f).snd ≤ 8
    ∧ ((readOps (getFileFormatT f).snd).all (fun r => r.2 = 4)) = true
    ∧ (∃ fmt : FileFormat, (getFileFormatT f).fst = some fmt) := by
  refine ⟨?_, ?_, ?_⟩
  · by_cases h : f.bytes.length < 4
    · simp [getFileFormatT_small f h, bytesRequested, readOps]
    · rw [getFileFormatT_eq f (by omega)]
      by_cases hm : magicsGet (u32LE (f.bytes.take 4)) = FileFormat.TES4
      · by_cases hl8 : f.bytes.length < 8 <;>
          simp [hm, hl8, bytesRequested, readOps]
      · simp [hm, bytesRequested, readOps]
  · by_cases h : f.bytes.length < 4
    · simp [getFileFormatT_small f h, readOps]
    · rw [getFileFormatT_eq f (by omega)]
      by_cases hm : magicsGet (u32LE (f.bytes.take 4)) = FileFormat.TES4
      · by_cases hl8 : f.bytes.length < 8 <;> simp [hm, hl8, readOps]
      · simp [hm, readOps]
  · have h := getFileFormatT_fst_isSome f
    rw [Option.isSome_iff_exists] at h
    exact h

/-- C4: the sniffer is pure and deterministic in the file's size and first
eight bytes; its reads are a single forward pass from position 0; and its
trace leaves every filesystem unchanged (it touches no mutable state). -/
theorem c4_pure_stateless (f g : File)
    (hlen : f.bytes.length = g.bytes.length)
    (h8 : f.bytes.take 8 = g.bytes.take 8) :
    (getFileFormatT f).fst = (getFileFormatT g).fst
    ∧ forwardFrom 0 (readOps (getFileFormatT f).snd) = true
    ∧ (∀ fs : FS, applyTrace (getFileFormatT f).snd fs = fs) := by
  refine ⟨?_, ?_, ?_⟩
  · have ht4 : f.bytes.take 4 = g.bytes.take 4 := by
      have h := congrArg (List.take 4) h8
      simpa [List.take_take] using h
    have ht48 : (f.bytes.drop 4).take 4 = (g.bytes.drop 4).take 4 := by
      have h := congrArg (List.drop 4) h8
      simpa [List.drop_take] using h
    by_cases h : f.bytes.length < 4
    · rw [getFileFormatT_small f h, getFileFormatT_small g (hlen ▸ h)]
    · rw [getFileFormatT_eq f (by omega), getFileFormatT_eq g (by omega),
        ht4, ht48, hlen]
      by_cases hm : magicsGet (u32LE (g.bytes.take 4)) = FileFormat.TES4
      · by_cases hl8 : g.bytes.length < 8 <;> simp [hm, hl8]
      · simp [hm]
  · by_cases h : f.bytes.length < 4
    · simp [getFileFormatT_small f h, readOps, forwardFrom]
    · rw [getFileFormatT_eq f (by omega)]
      by_cases hm : magicsGet (u32LE (f.bytes.take 4)) = FileFormat.TES4
      · by_cases hl8 : f.bytes.length < 8 <;>
          simp [hm, hl8, readOps, forwardFrom]
      · simp [hm, readOps, forwardFrom]
  · intro fs
    exact applyTrace_of_readOnly _ (readOnly_getFileFormatT f) fs

/-- Witness for C4 at two files of equal size agreeing on their first
eight bytes but differing in the ninth. -/
theorem c4_pure_stateless_witness :
    (getFileFormatT ⟨"a.bsa", ".bsa", true,
        [0x42, 0x53, 0x41, 0, 103, 0, 0, 0, 7]⟩).fst =
      (getFileFormatT ⟨"b.bsa", ".bsa", true,
        [0x42, 0x53, 0x41, 0, 103, 0, 0, 0, 9]⟩).fst := by
  have h := (c4_pure_stateless
    ⟨"a.bsa", ".bsa", true, [0x42, 0x53, 0x41, 0, 103, 0, 0, 0, 7]⟩
    ⟨"b.bsa", ".bsa", true, [0x42, 0x53, 0x41, 0, 103, 0, 0, 0, 9]⟩
    (by decide) (by decide)).1
  exact h

/-- Counterexample to C5 as stated: a scan over a single enumerated entry
that is not a regular file never invokes the sniffer (zero `statQ`
operations in the whole scan trace), yet the claim demands exactly one
invocation per enumerated file. -/
theorem c5_counterexample_not_once :
    (listBadArchivesT "Skyrim" [⟨"bad.bsa", ".bsa", false, []⟩]).fst =
        some [⟨⟨"bad.bsa", ".bsa", false, []⟩, Problem.NOT_A_FILE⟩]
    ∧ sniffCount
        ((listBadArchivesT "Skyrim" [⟨"bad.bsa", ".bsa", false, []⟩]).snd)
      = 0 := by
  constructor <;> rfl

/-- C5 (amended): during a scan under a supported game the sniffer is
invoked at most once per enumerated file — exactly once when the file is a
regular file whose suffix matches the game's expected extension and zero
times otherwise — and the scan trace is the serial concatenation of the
per-file validation traces, each of which depends only on the game and
that file. -/
theorem c5_sniffer_once_per_matching_file (game ext : String)
    (files : List File) (hg : gameToExt game = some ext) :
    (∀ f : File, sniffCount (validateArchiveT game f).snd =
        if f.isFile = true ∧ f.suffix = ext then 1 else 0)
    ∧ ((listBadArchivesT game files).snd =
        files.flatMap (fun f => (validateArchiveT game f).snd)) := by
  constructor
  · intro f
    exact sniffCount_validateArchiveT game ext f hg
  · refine listBadArchivesT_snd game ?_ files
    refine gameToExt_supported game ?_
    rw [hg]
    rfl

/-- Witness for the amended C5: a Skyrim scan over one regular matching
file and one non-file sniffs exactly the former. -/
theorem c5_sniffer_once_per_matching_file_witness :
    sniffCount (validateArchiveT "Skyrim"
        ⟨"a.bsa", ".bsa", true, [1, 2]⟩).snd = 1
    ∧ sniffCount (validateArchiveT "Skyrim"
        ⟨"bad2.bsa", ".bsa", false, []⟩).snd = 0 := by
  have h := c5_sniffer_once_per_matching_file "Skyrim" ".bsa" [] (by decide)
  constructor
  · rw [h.1 ⟨"a.bsa", ".bsa", true, [1, 2]⟩]
    decide
  · rw [h.1 ⟨"bad2.bsa", ".bsa", false, []⟩]
    decide

/-- C6: whenever `activeProblems` completes, the rebuilt `__archives` list
holds exactly the enumerated files whose validation is a problem other
than NONE, each paired with that problem, in enumeration order; files
validating to NONE are excluded. -/
theorem c6_archives_rebuilt (game : String) (files : List File)
    (vals : List Nat) (archives : List ProblemArchive)
    (h : (activeProblemsT game files).fst = some (vals, archives)) :
    archives = files.filterMap (fun f =>
      match (validateArchiveT game f).fst with
      | some p => if p = Problem.NONE then none else some ⟨f, p⟩
      | none => none) := by
  unfold activeProblemsT at h
  rcases hl : listBadArchivesT game files with ⟨o, t⟩
  rw [hl] at h
  rcases o with _ | l
  · simp at h
  · simp only [Option.some.injEq, Prod.mk.injEq] at h
    rw [← h.2]
    refine listBadArchivesT_fst_eq game files l ?_
    rw [hl]

/-- Witness for C6: a Skyrim scan over a compatible archive (excluded as
NONE) and a `.ba2` archive (kept as WRONG_EXTENSION, paired with it). -/
theorem c6_archives_rebuilt_witness :
    ([⟨⟨"bad.ba2", ".ba2", true, []⟩, Problem.WRONG_EXTENSION⟩] :
        List ProblemArchive) =
      [(⟨"good.bsa", ".bsa", true, [0x42, 0x53, 0x41, 0, 104, 0, 0, 0]⟩ : File),
       ⟨"bad.ba2", ".ba2", true, []⟩].filterMap (fun f =>
        match (validateArchiveT "Skyrim" f).fst with
        | some p => if p = Problem.NONE then none else some ⟨f, p⟩
        | none => none) := by
  refine c6_archives_rebuilt "Skyrim"
    [⟨"good.bsa", ".bsa", true, [0x42, 0x53, 0x41, 0, 104, 0, 0, 0]⟩,
     ⟨"bad.ba2", ".ba2", true, []⟩]
    [Problem.WRONG_EXTENSION.val] _ ?_
  decide

/-- C7: a full diagnostic scan issues only read-only filesystem
operations, so applying its whole operation trace to any filesystem state
leaves every file's content unchanged. -/
theorem c7_scan_is_read_only (game : String) (files : List File) :
    (((activeProblemsT game files).snd).all FsOp.readOnly = true)
    ∧ (∀ fs : FS, applyTrace ((activeProblemsT game files).snd) fs = fs) := by
  have h := readOnly_listBadArchivesT game files
  rw [← activeProblemsT_snd_eq] at h
  exact ⟨h, fun fs => applyTrace_of_readOnly _ h fs⟩

theorem listBadArchivesT_problem_ne_none (game : String) (files : List File)
    (l : List ProblemArchive)
    (h : (listBadArchivesT game files).fst = some l) :
    ∀ x ∈ l, x.problem ≠ Problem.NONE := by
  intro x hx
  rw [listBadArchivesT_fst_eq game files l h, List.mem_filterMap] at hx
  obtain ⟨f, _, hmatch⟩ := hx
  rcases hv : (validateArchiveT game f).fst with _ | p <;> rw [hv] at hmatch
  · simp at hmatch
  · by_cases hp : p = Problem.NONE
    · simp [hp] at hmatch
    · simp only [hp, if_false, Option.some.injEq] at hmatch
      rw [← hmatch]
      exact hp

/-- C8: the sniffer never reads past the end of the file: it always
terminates normally (no unpack ever receives fewer than four bytes), every
read stays within the file size, a file smaller than 4 bytes yields
UNKNOWN with no read at all, and a TES4-magic file smaller than 8 bytes
yields UNKNOWN with only the single magic read. -/
theorem c8_never_reads_past_eof (f : File) :
    (((getFileFormatT f).fst).isSome = true)
    ∧ (readsInBounds f.bytes.length (getFileFormatT f).snd = true)
    ∧ (f.bytes.length < 4 →
        getFileFormatT f = (some FileFormat.UNKNOWN, [.statQ f.name]))
    ∧ (4 ≤ f.bytes.length →
        magicsGet (u32LE (f.bytes.take 4)) = FileFormat.TES4 →
        f.bytes.length < 8 →
        (getFileFormatT f).fst = some FileFormat.UNKNOWN ∧
          readOps (getFileFormatT f).snd = [(0, 4)]) := by
  refine ⟨getFileFormatT_fst_isSome f, ?_, getFileFormatT_small f, ?_⟩
  · by_cases h : f.bytes.length < 4
    · simp [getFileFormatT_small f h, readsInBounds, readOps]
    · rw [getFileFormatT_eq f (by omega)]
      by_cases hm : magicsGet (u32LE (f.bytes.take 4)) = FileFormat.TES4
      · by_cases hl8 : f.bytes.length < 8 <;>
          (simp [hm, hl8, readsInBounds, readOps]; omega)
      · simp [hm, readsInBounds, readOps]
        omega
  · intro h4 hm hl8
    rw [getFileFormatT_eq f h4]
    simp [hm, hl8, readOps]

/-- Witness for C8 at a 5-byte file carrying the TES4-family magic: the
version field is never read and the result is UNKNOWN. -/
theorem c8_never_reads_past_eof_witness :
    (getFileFormatT ⟨"x.bsa", ".bsa", true, [0x42, 0x53, 0x41, 0, 0]⟩).fst
        = some FileFormat.UNKNOWN
    ∧ readOps (getFileFormatT
        ⟨"x.bsa", ".bsa", true, [0x42, 0x53, 0x41, 0, 0]⟩).snd = [(0, 4)] :=
  (c8_never_reads_past_eof ⟨"x.bsa", ".bsa", true, [0x42, 0x53, 0x41, 0, 0]⟩).2.2.2
    (by decide) (by decide) (by decide)

/-- C9: whenever `activeProblems` completes, the returned list of problem
values contains no duplicates and never contains the value of
Problem.NONE, for every filesystem state and every current game. -/
theorem c9_active_problems_values (game : String) (files : List File)
    (vals : List Nat) (archives : List ProblemArchive)
    (h : (activeProblemsT game files).fst = some (vals, archives)) :
    vals.Nodup ∧ Problem.NONE.val ∉ vals := by
  unfold activeProblemsT at h
  rcases hl : listBadArchivesT game files with ⟨o, t⟩
  rw [hl] at h
  rcases o with _ | l
  · simp at h
  · simp only [Option.some.injEq, Prod.mk.injEq] at h
    obtain ⟨h1, h2⟩ := h
    constructor
    · rw [← h1]
      exact List.nodup_dedup _
    · rw [← h1]
      intro hmem
      rw [List.mem_dedup, List.mem_map] at hmem
      obtain ⟨x, hx, hval⟩ := hmem
      have hne : x.problem ≠ Problem.NONE := by
        refine listBadArchivesT_problem_ne_none game files l ?_ x hx
        rw [hl]
      have hinj : ∀ q : Problem, q.val = Problem.NONE.val → q = Problem.NONE := by
        intro q
        cases q <;> simp [Problem.val]
      exact hne (hinj x.problem hval)

/-- Witness for C9 at a Skyrim scan over a non-file and two
wrong-extension archives: values `[2, 3]`, no duplicate, no NONE value. -/
theorem c9_active_problems_values_witness :
    ([2, 3] : List Nat).Nodup ∧ Problem.NONE.val ∉ ([2, 3] : List Nat) := by
  refine c9_active_problems_values "Skyrim"
    [⟨"a.bsa", ".bsa", false, []⟩,
     ⟨"b.ba2", ".ba2", true, []⟩,
     ⟨"c.ba2", ".ba2", true, []⟩]
    [2, 3]
    [⟨⟨"a.bsa", ".bsa", false, []⟩, Problem.NOT_A_FILE⟩,
     ⟨⟨"b.ba2", ".ba2", true, []⟩, Problem.WRONG_EXTENSION⟩,
     ⟨⟨"c.ba2", ".ba2", true, []⟩, Problem.WRONG_EXTENSION⟩] ?_
  decide

/-- C10: the plugin never offers a guided fix: for every key decoding to a
problem other than NONE, `hasGuidedFix` returns False; for the key of
Problem.NONE it raises IndexError; and `startGuidedFix` raises ValueError
for every key. -/
theorem c10_no_guided_fix (key : Nat) (p : Problem) :
    (Problem.ofKey key = some p → p ≠ Problem.NONE →
      hasGuidedFix key = .ok false)
    ∧ (hasGuidedFix Problem.NONE.val = .error .indexError)
    ∧ (startGuidedFix key = .error .valueError) := by
  refine ⟨?_, rfl, rfl⟩
  intro h1 h2
  simp [hasGuidedFix, h1, h2]

/-- Witness for C10 at key 3 (WRONG_EXTENSION). -/
theorem c10_no_guided_fix_witness :
    Problem.ofKey 3 = some Problem.WRONG_EXTENSION
    ∧ hasGuidedFix 3 = .ok false
    ∧ hasGuidedFix Problem.NONE.val = .error .indexError
    ∧ startGuidedFix 3 = .error .valueError := by
  have h := c10_no_guided_fix 3 Problem.WRONG_EXTENSION
  exact ⟨by decide, h.1 (by decide) (by decide), h.2.1, h.2.2⟩
